import Mathlib

/-!
Shallow embedding of the scanner in `src/lexer.rs` of `sixels/lox-rs`.

The Rust `String` buffer is modelled as a `List Char`; byte offsets are
`Nat`s measured with the UTF-8 size of each character.  A crucial detail of
the source is kept: `Lexer::tokenize_next` reads the current character with
`self.buffer.chars().skip(self.position)` — a *character* index — while
`self.position` is advanced by *byte* lengths, and the byte-slicing
operations `&self.buffer[i..]` are modelled as partial (`Option`), `none`
standing for the Rust panic on an out-of-bounds or non-boundary index.
-/

/-- `TokenKind` from src/lexer.rs. -/
inductive TokenKind where
  | LeftParen | RightParen | LeftBrace | RightBrace
  | Comma | Dot | Minus | Plus | SemiColon | Slash | Star
  | Bang | BangEqual | Equal | EqualEqual
  | Greater | GreaterEqual | Less | LessEqual
  | Identifier (s : List Char)
  | String (s : List Char)
  | Number (n : Int)
  | And | Class | Else | False | Fun | For | If | Nil | Or
  | Print | Return | Super | This | True | Var | While
  | Unknown
  deriving DecidableEq, Repr

/-- `struct Lexer` from src/lexer.rs: the whole source text and a byte
    offset into it. -/
structure Lexer where
  buffer : List Char
  position : Nat
  deriving DecidableEq, Repr

/-- `Lexer::new`. -/
def Lexer.new (buffer : List Char) : Lexer :=
  ⟨buffer, 0⟩

/-- Rust `char::len_utf8`: the number of bytes of the character in UTF-8. -/
def lenUtf8 (c : Char) : Nat :=
  if c.toNat < 0x80 then 1
  else if c.toNat < 0x800 then 2
  else if c.toNat < 0x10000 then 3
  else 4

/-- Byte length of a string given as its list of characters. -/
def utf8Length (s : List Char) : Nat :=
  (s.map lenUtf8).sum

/-- The double-quote character `U+0022`. -/
def dquote : Char := Char.ofNat 34

/-- Rust `char::is_whitespace`: the Unicode `White_Space` property
    (a closed list of code points, transcribed in full). -/
def isRustWhitespace (c : Char) : Bool :=
  let n := c.toNat
  (0x09 ≤ n && n ≤ 0x0D) || n = 0x20 || n = 0x85 || n = 0xA0 || n = 0x1680 ||
  (0x2000 ≤ n && n ≤ 0x200A) || n = 0x2028 || n = 0x2029 || n = 0x202F ||
  n = 0x205F || n = 0x3000

/-- Rust `char::is_alphabetic` (the Unicode `Alphabetic` property),
    transcribed exactly for code points below `0x100`; no theorem below
    depends on the classification of higher code points, which this model
    maps to `false`. -/
def isRustAlphabetic (c : Char) : Bool :=
  let n := c.toNat
  (0x41 ≤ n && n ≤ 0x5A) || (0x61 ≤ n && n ≤ 0x7A) ||
  n = 0xAA || n = 0xB5 || n = 0xBA ||
  (0xC0 ≤ n && n ≤ 0xD6) || (0xD8 ≤ n && n ≤ 0xF6) || (0xF8 ≤ n && n ≤ 0xFF)

/-- Rust `char::is_alphanumeric` (`Alphabetic` plus the numeric general
    categories), transcribed exactly for code points below `0x100`. -/
def isRustAlphanumeric (c : Char) : Bool :=
  let n := c.toNat
  isRustAlphabetic c || (0x30 ≤ n && n ≤ 0x39) ||
  n = 0xB2 || n = 0xB3 || n = 0xB9 || n = 0xBC || n = 0xBD || n = 0xBE

/-- Rust `char::is_digit(10)`: an ASCII decimal digit. -/
def isRustDigit10 (c : Char) : Bool :=
  0x30 ≤ c.toNat && c.toNat ≤ 0x39

/-- Rust byte slicing `&s[n..]`, as the list of remaining characters:
    `none` models the panic when `n` is past the end of the string or not
    on a character boundary. -/
def byteDrop : Nat → List Char → Option (List Char)
  | 0, s => some s
  | _ + 1, [] => none
  | n + 1, c :: s =>
    if lenUtf8 c ≤ n + 1 then byteDrop (n + 1 - lenUtf8 c) s else none

/-- The first characters of a string spanning exactly `n` bytes: `none`
    models the panic when `n` overruns the string or splits a character. -/
def byteTake : Nat → List Char → Option (List Char)
  | 0, _ => some []
  | _ + 1, [] => none
  | n + 1, c :: s =>
    if lenUtf8 c ≤ n + 1 then
      match byteTake (n + 1 - lenUtf8 c) s with
      | some t => some (c :: t)
      | none => none
    else none

/-- Rust byte slicing `&s[a..b]` (`none` models the panic). -/
def byteSlice (s : List Char) (a b : Nat) : Option (List Char) :=
  match byteDrop a s with
  | none => none
  | some rest => byteTake (b - a) rest

/-- `take_all` from src/lexer.rs: the maximal prefix whose characters all
    satisfy `matcher`, paired with its length in bytes. -/
def take_all (data : List Char) (matcher : Char → Bool) : List Char × Nat :=
  (data.takeWhile matcher, utf8Length (data.takeWhile matcher))

/-- The distinct failure causes produced in src/lexer.rs (`anyhow` error
    messages, and the `ParseIntError` propagated from `str::parse`). -/
inductive ScanError where
  | unknownToken (snippet : List Char)
  | unmatchedQuotes
  | parseIntError
  deriving DecidableEq, Repr

/-- Outcome of `Lexer::tokenize_next` and of the sub-scanners:
    `ok t len` is `Ok(Some((t, len)))`, `eof` is `Ok(None)`, `fail e` is
    `Err(e)`, and `panicked` models a Rust panic (out-of-bounds slicing, or
    the `unreachable!`/`unwrap` paths). -/
inductive TokResult where
  | ok (t : TokenKind) (len : Nat)
  | eof
  | fail (e : ScanError)
  | panicked
  deriving DecidableEq, Repr

/-- The numeric value of a run of decimal digits, most significant first
    (the accumulator loop of `str::parse`). -/
def digitsVal (s : List Char) : Nat :=
  s.foldl (fun acc c => 10 * acc + (c.toNat - 0x30)) 0

/-- Rust `str::parse::<i64>` on the strings that reach it in src/lexer.rs
    (runs produced by `take_all(is_digit)`): a `ParseIntError` (`none`) on
    an empty run, on a non-digit, or on overflow past `i64::MAX`. -/
def parseI64 (s : List Char) : Option Int :=
  if s.isEmpty || !s.all isRustDigit10 then none
  else if digitsVal s ≤ 9223372036854775807 then some (Int.ofNat (digitsVal s))
  else none

/-- The sixteen keyword entries of `is_keyword` in src/lexer.rs. -/
def keywords : List (List Char × TokenKind) :=
  [("and".toList, .And), ("class".toList, .Class), ("else".toList, .Else),
   ("false".toList, .False), ("fun".toList, .Fun), ("for".toList, .For),
   ("if".toList, .If), ("nil".toList, .Nil), ("or".toList, .Or),
   ("print".toList, .Print), ("return".toList, .Return),
   ("super".toList, .Super), ("this".toList, .This), ("true".toList, .True),
   ("var".toList, .Var), ("while".toList, .While)]

/-- `HashMap::get` on the keyword table: lookup by key equality in the
    association list (the keys are pairwise distinct, so the order of the
    entries is irrelevant). -/
def lookupKw : List (List Char × TokenKind) → List Char → Option TokenKind
  | [], _ => none
  | (key, tok) :: rest, data => if data = key then some tok else lookupKw rest data

/-- `is_keyword` from src/lexer.rs. -/
def is_keyword (data : List Char) : Option TokenKind :=
  lookupKw keywords data

/-- `Lexer::skip_whitespaces`: the byte length of the maximal whitespace
    run at the cursor (`none` models the panic of the slice
    `&self.buffer[self.position..]`). -/
def Lexer.skip_whitespaces (l : Lexer) : Option Nat :=
  match byteDrop l.position l.buffer with
  | none => none
  | some rest => some (take_all rest isRustWhitespace).2

/-- `Lexer::tokenize_next_identifier`: the maximal alphanumeric run at the
    cursor, as an `Identifier` token with its byte length. -/
def Lexer.tokenize_next_identifier (l : Lexer) : TokResult :=
  match byteDrop l.position l.buffer with
  | none => .panicked
  | some rest =>
    .ok (.Identifier (take_all rest isRustAlphanumeric).1)
      (take_all rest isRustAlphanumeric).2

/-- `Lexer::tokenize_next_string`: the maximal run of non-quote characters
    starting one byte past the cursor; the closing-quote test consults
    `self.buffer.chars().nth(self.position + length + 1)` — a *character*
    index, while `length` is the *byte* length of the run, exactly as in
    the source. -/
def Lexer.tokenize_next_string (l : Lexer) : TokResult :=
  match byteDrop (l.position + 1) l.buffer with
  | none => .panicked
  | some rest =>
    if l.buffer.get?
        (l.position + (take_all rest (fun ch => ch != dquote)).2 + 1) =
        some dquote then
      .ok (.String (take_all rest (fun ch => ch != dquote)).1)
        ((take_all rest (fun ch => ch != dquote)).2 + 2)
    else .fail .unmatchedQuotes

/-- `Lexer::tokenize_next_number`: the maximal run of decimal digits at
    the cursor, parsed as an `i64`. -/
def Lexer.tokenize_next_number (l : Lexer) : TokResult :=
  match byteDrop l.position l.buffer with
  | none => .panicked
  | some rest =>
    match parseI64 (take_all rest isRustDigit10).1 with
    | some n => .ok (.Number n) (take_all rest isRustDigit10).2
    | none => .fail .parseIntError

/-- The body of the identifier arm of `Lexer::tokenize_next`: destructure
    the sub-scanner's `Identifier` and resolve it against the keyword
    table; any other shape is the `unreachable!`/`unwrap` panic. -/
def resolveIdent : TokResult → TokResult
  | .ok (.Identifier ident) length =>
    match is_keyword ident with
    | some keyword => .ok keyword length
    | none => .ok (.Identifier ident) length
  | _ => .panicked

/-- `Lexer::tokenize_next`.  `current` and `next` are
    `self.buffer.chars().skip(self.position)` and its successor — character
    indices, as in the source.  The identifier arm transcribes
    `ch @ '_' | ch if ch.is_alphabetic()`: in Rust the guard applies to
    every alternative of an or-pattern, so the arm matches exactly when
    `current.is_alphabetic()` holds, and `'_'` alone does not enter it.
    The catch-all arm builds its snippet from
    `&self.buffer[self.position..self.position + 10]` before the error is
    returned, so the slice may panic. -/
def Lexer.tokenize_next (l : Lexer) : TokResult :=
  match l.buffer.get? l.position with
  | none => .eof
  | some current =>
    if current = '(' then .ok .LeftParen 1
    else if current = ')' then .ok .RightParen 1
    else if current = '{' then .ok .LeftBrace 1
    else if current = '}' then .ok .RightBrace 1
    else if current = ',' then .ok .Comma 1
    else if current = '.' then .ok .Dot 1
    else if current = '-' then .ok .Minus 1
    else if current = '+' then .ok .Plus 1
    else if current = ';' then .ok .SemiColon 1
    else if current = '/' then .ok .Slash 1
    else if current = '*' then .ok .Star 1
    else if current = '!' then
      if l.buffer.get? (l.position + 1) = some '=' then .ok .BangEqual 2
      else .ok .Bang 1
    else if current = '=' then
      if l.buffer.get? (l.position + 1) = some '=' then .ok .EqualEqual 2
      else .ok .Equal 1
    else if current = '>' then
      if l.buffer.get? (l.position + 1) = some '=' then .ok .GreaterEqual 2
      else .ok .Greater 1
    else if current = '<' then
      if l.buffer.get? (l.position + 1) = some '=' then .ok .LessEqual 2
      else .ok .Less 1
    else if current = dquote then l.tokenize_next_string
    else if isRustAlphabetic current then resolveIdent l.tokenize_next_identifier
    else if isRustDigit10 current then l.tokenize_next_number
    else
      match byteSlice l.buffer l.position (l.position + 10) with
      | none => .panicked
      | some snippet => .fail (.unknownToken snippet)

/-- Outcome of one `Iterator::next` call on `Lexer`: `Some(token)`,
    `None`, or a panic (a slicing panic, or the `unwrap` of a scan
    error in `next`). -/
inductive NextResult where
  | tok (t : TokenKind)
  | eof
  | panicked
  deriving DecidableEq, Repr

/-- One `Iterator::next` call, additionally reporting the two increments
    `self.position += …` performs: the whitespace bytes skipped and the
    token bytes consumed.  On a panic the state reached so far is kept. -/
def Lexer.nextSpans (l : Lexer) : NextResult × Nat × Nat × Lexer :=
  match l.skip_whitespaces with
  | none => (.panicked, 0, 0, l)
  | some skipped =>
    match Lexer.tokenize_next ⟨l.buffer, l.position + skipped⟩ with
    | .ok t length =>
      (.tok t, skipped, length, ⟨l.buffer, l.position + skipped + length⟩)
    | .eof => (.eof, skipped, 0, ⟨l.buffer, l.position + skipped⟩)
    | .fail _ => (.panicked, skipped, 0, ⟨l.buffer, l.position + skipped⟩)
    | .panicked => (.panicked, skipped, 0, ⟨l.buffer, l.position + skipped⟩)

/-- `Iterator::next` for `Lexer` (src/lexer.rs): skip whitespace, classify,
    advance the cursor by the consumed length. -/
def Lexer.next (l : Lexer) : NextResult × Lexer :=
  ((l.nextSpans).1, (l.nextSpans).2.2.2)

/-- The scanner state after `n` calls of `Iterator::next`. -/
def Lexer.iter : Nat → Lexer → Lexer
  | 0, l => l
  | n + 1, l => Lexer.iter n (Lexer.next l).2

/-- How a bounded iteration of the token stream stopped. -/
inductive RunStop where
  | exhausted
  | panicked
  | fuelOut
  deriving DecidableEq, Repr

/-- Poll the token stream up to `fuel` times, collecting the produced
    tokens in order. -/
def Lexer.run : Nat → Lexer → List TokenKind × RunStop × Lexer
  | 0, l => ([], .fuelOut, l)
  | fuel + 1, l =>
    match Lexer.next l with
    | (.tok t, l') =>
      let r := Lexer.run fuel l'
      (t :: r.1, r.2.1, r.2.2)
    | (.eof, l') => ([], .exhausted, l')
    | (.panicked, l') => ([], .panicked, l')

/-- Poll the token stream up to `fuel` times, collecting the byte lengths
    of every skipped whitespace run and of every consumed token span (the
    whitespace skipped by the final, exhausting poll included). -/
def Lexer.runLens : Nat → Lexer → List Nat × List Nat × RunStop × Lexer
  | 0, l => ([], [], .fuelOut, l)
  | fuel + 1, l =>
    match Lexer.nextSpans l with
    | (.tok _, ws, len, l') =>
      let r := Lexer.runLens fuel l'
      (ws :: r.1, len :: r.2.1, r.2.2.1, r.2.2.2)
    | (.eof, ws, _, l') => ([ws], [], .exhausted, l')
    | (.panicked, ws, _, l') => ([ws], [], .panicked, l')

/-! ### Byte-length arithmetic -/

theorem lenUtf8_pos (c : Char) : 1 ≤ lenUtf8 c := by
  unfold lenUtf8; split_ifs <;> omega

theorem lenUtf8_ascii {c : Char} (h : c.toNat < 128) : lenUtf8 c = 1 := by
  unfold lenUtf8
  rw [if_pos]
  exact h

theorem utf8Length_nil : utf8Length [] = 0 := rfl

theorem utf8Length_cons (c : Char) (s : List Char) :
    utf8Length (c :: s) = lenUtf8 c + utf8Length s := by
  simp [utf8Length]

theorem utf8Length_append (a b : List Char) :
    utf8Length (a ++ b) = utf8Length a + utf8Length b := by
  simp [utf8Length]

theorem length_le_utf8Length (s : List Char) : s.length ≤ utf8Length s := by
  induction s with
  | nil => simp [utf8Length]
  | cons c t ih =>
    have := lenUtf8_pos c
    rw [utf8Length_cons, List.length_cons]
    omega

theorem utf8Length_of_len1 {s : List Char} (h : ∀ c ∈ s, lenUtf8 c = 1) :
    utf8Length s = s.length := by
  induction s with
  | nil => rfl
  | cons c t ih =>
    rw [utf8Length_cons, List.length_cons, h c (by simp),
      ih (fun x hx => h x (by simp [hx]))]
    omega

theorem byteDrop_zero (s : List Char) : byteDrop 0 s = some s := by
  cases s <;> rfl

theorem byteDrop_cons_lenUtf8 (c : Char) (s : List Char) (n : Nat) :
    byteDrop (lenUtf8 c + n) (c :: s) = byteDrop n s := by
  have h1 := lenUtf8_pos c
  rw [show lenUtf8 c + n = (lenUtf8 c + n - 1) + 1 by omega]
  rw [byteDrop, if_pos (by omega)]
  congr 1
  omega

theorem byteDrop_some_utf8 {n : Nat} {s r : List Char}
    (h : byteDrop n s = some r) : n + utf8Length r = utf8Length s := by
  induction s generalizing n with
  | nil =>
    cases n with
    | zero => rw [byteDrop_zero] at h; cases h; omega
    | succ m => rw [byteDrop] at h; cases h
  | cons c t ih =>
    cases n with
    | zero => rw [byteDrop_zero] at h; cases h; omega
    | succ m =>
      rw [byteDrop] at h
      split_ifs at h with hle
      · have := ih h
        rw [utf8Length_cons]
        omega

theorem byteDrop_append (a b : List Char) :
    byteDrop (utf8Length a) (a ++ b) = some b := by
  induction a with
  | nil => rw [utf8Length_nil, List.nil_append, byteDrop_zero]
  | cons c t ih =>
    rw [List.cons_append, utf8Length_cons, byteDrop_cons_lenUtf8]
    exact ih

theorem byteDrop_add {a : Nat} {s r : List Char}
    (h : byteDrop a s = some r) (b : Nat) : byteDrop (a + b) s = byteDrop b r := by
  induction s generalizing a with
  | nil =>
    cases a with
    | zero => rw [byteDrop_zero] at h; cases h; rw [Nat.zero_add]
    | succ m => rw [byteDrop] at h; cases h
  | cons c t ih =>
    cases a with
    | zero => rw [byteDrop_zero] at h; cases h; rw [Nat.zero_add]
    | succ m =>
      rw [byteDrop] at h
      split_ifs at h with hle
      · rw [show m + 1 + b = lenUtf8 c + (m + 1 - lenUtf8 c + b) by omega,
          byteDrop_cons_lenUtf8]
        exact ih h

theorem byteDrop_ascii {s : List Char} (h : ∀ c ∈ s, c.toNat < 128) {n : Nat}
    (hn : n ≤ s.length) : byteDrop n s = some (s.drop n) := by
  induction s generalizing n with
  | nil =>
    have : n = 0 := by simpa using hn
    rw [this, byteDrop_zero]; rfl
  | cons c t ih =>
    cases n with
    | zero => rw [byteDrop_zero]; rfl
    | succ m =>
      have hlen : lenUtf8 c = 1 := lenUtf8_ascii (h c (by simp))
      have hstep : byteDrop (m + 1) (c :: t) = byteDrop m t := by
        rw [show m + 1 = lenUtf8 c + m by omega, byteDrop_cons_lenUtf8]
      rw [hstep, List.drop_succ_cons]
      exact ih (fun x hx => h x (by simp [hx])) (by simpa using hn)

/-! ### `takeWhile`/`dropWhile` facts -/

theorem takeWhile_all {p : Char → Bool} {s : List Char} (h : ∀ c ∈ s, p c) :
    s.takeWhile p = s := by
  induction s with
  | nil => rfl
  | cons c t ih =>
    rw [List.takeWhile_cons_of_pos (h c (by simp)),
      ih (fun x hx => h x (by simp [hx]))]

theorem takeWhile_append_stop {p : Char → Bool} {a : List Char} {b : Char}
    (ha : ∀ c ∈ a, p c) (hb : p b = false) (t : List Char) :
    (a ++ b :: t).takeWhile p = a := by
  induction a with
  | nil =>
    rw [List.nil_append]
    exact List.takeWhile_cons_of_neg (by simp [hb])
  | cons c u ih =>
    rw [List.cons_append, List.takeWhile_cons_of_pos (ha c (by simp)),
      ih (fun x hx => ha x (by simp [hx]))]

theorem takeWhile_dropWhile {p : Char → Bool} (s : List Char) :
    (s.dropWhile p).takeWhile p = [] := by
  induction s with
  | nil => rfl
  | cons c t ih =>
    by_cases h : p c
    · rw [List.dropWhile_cons_of_pos h]; exact ih
    · rw [List.dropWhile_cons_of_neg h, List.takeWhile_cons_of_neg h]

theorem utf8Length_takeWhile_le (p : Char → Bool) (s : List Char) :
    utf8Length (s.takeWhile p) ≤ utf8Length s := by
  calc utf8Length (s.takeWhile p)
      ≤ utf8Length (s.takeWhile p) + utf8Length (s.dropWhile p) :=
        Nat.le_add_right _ _
    _ = utf8Length s := by
        rw [← utf8Length_append, List.takeWhile_append_dropWhile]

theorem byteDrop_one_of_len1 {c : Char} (h : lenUtf8 c = 1) (s : List Char) :
    byteDrop 1 (c :: s) = some s := by
  rw [show (1 : Nat) = lenUtf8 c + 0 by omega, byteDrop_cons_lenUtf8, byteDrop_zero]

/-! ### Character-class facts -/

theorem digit_not_alpha {c : Char} (h : isRustDigit10 c = true) :
    isRustAlphabetic c = false := by
  simp only [isRustDigit10, Bool.and_eq_true, decide_eq_true_eq] at h
  simp only [isRustAlphabetic, Bool.or_eq_false_iff, Bool.and_eq_false_iff,
    decide_eq_false_iff_not]
  omega

theorem digit_len1 {c : Char} (h : isRustDigit10 c = true) : lenUtf8 c = 1 := by
  simp only [isRustDigit10, Bool.and_eq_true, decide_eq_true_eq] at h
  exact lenUtf8_ascii (by omega)

/-! ### Bounds on the consumed length of one classification -/

theorem tokenize_next_string_bound {l : Lexer} {t : TokenKind} {len : Nat}
    (h : l.tokenize_next_string = .ok t len) :
    l.position + len ≤ utf8Length l.buffer := by
  unfold Lexer.tokenize_next_string at h
  cases hb : byteDrop (l.position + 1) l.buffer with
  | none => rw [hb] at h; cases h
  | some rest =>
    rw [hb] at h
    dsimp only at h
    split_ifs at h with hq
    · rw [TokResult.ok.injEq] at h
      obtain ⟨-, hlen⟩ := h
      have hlt := (List.get?_eq_some.1 hq).1
      have hBN := length_le_utf8Length l.buffer
      simp only [take_all] at hlt hlen
      omega

theorem tokenize_next_identifier_bound {l : Lexer} {t : TokenKind} {len : Nat}
    (h : l.tokenize_next_identifier = .ok t len) :
    l.position + len ≤ utf8Length l.buffer := by
  unfold Lexer.tokenize_next_identifier at h
  cases hb : byteDrop l.position l.buffer with
  | none => rw [hb] at h; cases h
  | some rest =>
    rw [hb] at h
    dsimp only at h
    rw [TokResult.ok.injEq] at h
    obtain ⟨-, hlen⟩ := h
    have h1 := byteDrop_some_utf8 hb
    have h2 := utf8Length_takeWhile_le isRustAlphanumeric rest
    simp only [take_all] at hlen
    omega

theorem tokenize_next_number_bound {l : Lexer} {t : TokenKind} {len : Nat}
    (h : l.tokenize_next_number = .ok t len) :
    l.position + len ≤ utf8Length l.buffer := by
  unfold Lexer.tokenize_next_number at h
  cases hb : byteDrop l.position l.buffer with
  | none => rw [hb] at h; cases h
  | some rest =>
    rw [hb] at h
    dsimp only at h
    cases hp : parseI64 (take_all rest isRustDigit10).1 with
    | none => rw [hp] at h; cases h
    | some n =>
      rw [hp] at h
      dsimp only at h
      rw [TokResult.ok.injEq] at h
      obtain ⟨-, hlen⟩ := h
      have h1 := byteDrop_some_utf8 hb
      have h2 := utf8Length_takeWhile_le isRustDigit10 rest
      simp only [take_all] at hlen
      omega

theorem resolveIdent_ok {r : TokResult} {t : TokenKind} {len : Nat}
    (h : resolveIdent r = .ok t len) :
    ∃ ident, r = .ok (.Identifier ident) len := by
  cases r with
  | ok tk length =>
    cases tk
    case Identifier ident =>
      refine ⟨ident, ?_⟩
      unfold resolveIdent at h
      dsimp only at h
      cases hk : is_keyword ident <;> rw [hk] at h <;> dsimp only at h <;>
        (rw [TokResult.ok.injEq] at h; rw [h.2])
    all_goals exact absurd h (by simp [resolveIdent])
  | eof => exact absurd h (by simp [resolveIdent])
  | fail e => exact absurd h (by simp [resolveIdent])
  | panicked => exact absurd h (by simp [resolveIdent])

theorem tokenize_next_bound {l : Lexer} {t : TokenKind} {len : Nat}
    (h : l.tokenize_next = .ok t len) :
    l.position + len ≤ utf8Length l.buffer := by
  unfold Lexer.tokenize_next at h
  cases hc : l.buffer.get? l.position with
  | none => rw [hc] at h; cases h
  | some current =>
    rw [hc] at h
    dsimp only at h
    have hlt : l.position < l.buffer.length := (List.get?_eq_some.1 hc).1
    have hBN := length_le_utf8Length l.buffer
    by_cases hci1 : current = '('
    · rw [if_pos hci1, TokResult.ok.injEq] at h
      obtain ⟨-, hlen⟩ := h
      omega
    rw [if_neg hci1] at h
    by_cases hci2 : current = ')'
    · rw [if_pos hci2, TokResult.ok.injEq] at h
      obtain ⟨-, hlen⟩ := h
      omega
    rw [if_neg hci2] at h
    by_cases hci3 : current = '{'
    · rw [if_pos hci3, TokResult.ok.injEq] at h
      obtain ⟨-, hlen⟩ := h
      omega
    rw [if_neg hci3] at h
    by_cases hci4 : current = '}'
    · rw [if_pos hci4, TokResult.ok.injEq] at h
      obtain ⟨-, hlen⟩ := h
      omega
    rw [if_neg hci4] at h
    by_cases hci5 : current = ','
    · rw [if_pos hci5, TokResult.ok.injEq] at h
      obtain ⟨-, hlen⟩ := h
      omega
    rw [if_neg hci5] at h
    by_cases hci6 : current = '.'
    · rw [if_pos hci6, TokResult.ok.injEq] at h
      obtain ⟨-, hlen⟩ := h
      omega
    rw [if_neg hci6] at h
    by_cases hci7 : current = '-'
    · rw [if_pos hci7, TokResult.ok.injEq] at h
      obtain ⟨-, hlen⟩ := h
      omega
    rw [if_neg hci7] at h
    by_cases hci8 : current = '+'
    · rw [if_pos hci8, TokResult.ok.injEq] at h
      obtain ⟨-, hlen⟩ := h
      omega
    rw [if_neg hci8] at h
    by_cases hci9 : current = ';'
    · rw [if_pos hci9, TokResult.ok.injEq] at h
      obtain ⟨-, hlen⟩ := h
      omega
    rw [if_neg hci9] at h
    by_cases hci10 : current = '/'
    · rw [if_pos hci10, TokResult.ok.injEq] at h
      obtain ⟨-, hlen⟩ := h
      omega
    rw [if_neg hci10] at h
    by_cases hci11 : current = '*'
    · rw [if_pos hci11, TokResult.ok.injEq] at h
      obtain ⟨-, hlen⟩ := h
      omega
    rw [if_neg hci11] at h
    by_cases hci12 : current = '!'
    · rw [if_pos hci12] at h
      by_cases hEq : l.buffer.get? (l.position + 1) = some '='
      · rw [if_pos hEq, TokResult.ok.injEq] at h
        obtain ⟨-, hlen⟩ := h
        have := (List.get?_eq_some.1 hEq).1
        omega
      · rw [if_neg hEq, TokResult.ok.injEq] at h
        obtain ⟨-, hlen⟩ := h
        omega
    rw [if_neg hci12] at h
    by_cases hci13 : current = '='
    · rw [if_pos hci13] at h
      by_cases hEq : l.buffer.get? (l.position + 1) = some '='
      · rw [if_pos hEq, TokResult.ok.injEq] at h
        obtain ⟨-, hlen⟩ := h
        have := (List.get?_eq_some.1 hEq).1
        omega
      · rw [if_neg hEq, TokResult.ok.injEq] at h
        obtain ⟨-, hlen⟩ := h
        omega
    rw [if_neg hci13] at h
    by_cases hci14 : current = '>'
    · rw [if_pos hci14] at h
      by_cases hEq : l.buffer.get? (l.position + 1) = some '='
      · rw [if_pos hEq, TokResult.ok.injEq] at h
        obtain ⟨-, hlen⟩ := h
        have := (List.get?_eq_some.1 hEq).1
        omega
      · rw [if_neg hEq, TokResult.ok.injEq] at h
        obtain ⟨-, hlen⟩ := h
        omega
    rw [if_neg hci14] at h
    by_cases hci15 : current = '<'
    · rw [if_pos hci15] at h
      by_cases hEq : l.buffer.get? (l.position + 1) = some '='
      · rw [if_pos hEq, TokResult.ok.injEq] at h
        obtain ⟨-, hlen⟩ := h
        have := (List.get?_eq_some.1 hEq).1
        omega
      · rw [if_neg hEq, TokResult.ok.injEq] at h
        obtain ⟨-, hlen⟩ := h
        omega
    rw [if_neg hci15] at h
    by_cases hq : current = dquote
    · rw [if_pos hq] at h
      exact tokenize_next_string_bound h
    rw [if_neg hq] at h
    by_cases ha : isRustAlphabetic current = true
    · rw [if_pos ha] at h
      obtain ⟨ident, hi⟩ := resolveIdent_ok h
      exact tokenize_next_identifier_bound hi
    rw [if_neg ha] at h
    by_cases hd : isRustDigit10 current = true
    · rw [if_pos hd] at h
      exact tokenize_next_number_bound h
    rw [if_neg hd] at h
    cases hbs : byteSlice l.buffer l.position (l.position + 10) <;>
      rw [hbs] at h <;> cases h
theorem skip_whitespaces_some {l : Lexer} {k : Nat}
    (h : l.skip_whitespaces = some k) :
    ∃ rest, byteDrop l.position l.buffer = some rest ∧
      k = utf8Length (rest.takeWhile isRustWhitespace) := by
  unfold Lexer.skip_whitespaces at h
  cases hb : byteDrop l.position l.buffer with
  | none => rw [hb] at h; cases h
  | some rest =>
    rw [hb] at h
    dsimp only [take_all] at h
    exact ⟨rest, rfl, (Option.some.injEq _ _ ▸ h).symm⟩

theorem skip_whitespaces_le {l : Lexer} {k : Nat}
    (h : l.skip_whitespaces = some k) :
    l.position + k ≤ utf8Length l.buffer := by
  obtain ⟨rest, hb, hk⟩ := skip_whitespaces_some h
  have h1 := byteDrop_some_utf8 hb
  have h2 := utf8Length_takeWhile_le isRustWhitespace rest
  omega

theorem next_step_bound {l : Lexer} (hp : l.position ≤ utf8Length l.buffer) :
    (Lexer.next l).2.buffer = l.buffer ∧
    l.position ≤ (Lexer.next l).2.position ∧
    (Lexer.next l).2.position ≤ utf8Length l.buffer := by
  unfold Lexer.next Lexer.nextSpans
  cases hs : l.skip_whitespaces with
  | none => exact ⟨rfl, Nat.le_refl _, hp⟩
  | some skipped =>
    have hws := skip_whitespaces_le hs
    dsimp only
    cases ht : Lexer.tokenize_next ⟨l.buffer, l.position + skipped⟩ with
    | ok t len =>
      have hb := tokenize_next_bound ht
      dsimp only at hb
      dsimp only
      exact ⟨rfl, by omega, by omega⟩
    | eof => dsimp only; exact ⟨rfl, by omega, by omega⟩
    | fail e => dsimp only; exact ⟨rfl, by omega, by omega⟩
    | panicked => dsimp only; exact ⟨rfl, by omega, by omega⟩

theorem iter_succ_comm (n : Nat) (l : Lexer) :
    Lexer.iter (n + 1) l = (Lexer.next (Lexer.iter n l)).2 := by
  induction n generalizing l with
  | zero => rfl
  | succ m ih => rw [Lexer.iter, ih, Lexer.iter]

theorem iter_inv (n : Nat) (l : Lexer) (hp : l.position ≤ utf8Length l.buffer) :
    (Lexer.iter n l).buffer = l.buffer ∧
    l.position ≤ (Lexer.iter n l).position ∧
    (Lexer.iter n l).position ≤ utf8Length l.buffer := by
  induction n generalizing l with
  | zero => exact ⟨rfl, Nat.le_refl _, hp⟩
  | succ m ih =>
    obtain ⟨h1, h2, h3⟩ := next_step_bound hp
    obtain ⟨g1, g2, g3⟩ := ih (Lexer.next l).2 (by rw [h1]; exact h3)
    rw [Lexer.iter]
    refine ⟨by rw [g1, h1], Nat.le_trans h2 g2, ?_⟩
    rw [h1] at g3
    exact g3

/-- C8: every advancement preserves the scanner invariant — the buffer
    text is never mutated, the cursor never moves backwards, and the
    cursor never exceeds the buffer's byte length, along every sequence of
    `Iterator::next` calls on a scanner built over any text. -/
theorem claim_c8_state_invariant (b : List Char) (n : Nat) :
    (Lexer.iter n (Lexer.new b)).buffer = b ∧
    (Lexer.iter n (Lexer.new b)).position ≤
      (Lexer.iter (n + 1) (Lexer.new b)).position ∧
    (Lexer.iter n (Lexer.new b)).position ≤ utf8Length b := by
  obtain ⟨h1, h2, h3⟩ := iter_inv n (Lexer.new b) (Nat.zero_le _)
  have hp : (Lexer.iter n (Lexer.new b)).position ≤
      utf8Length (Lexer.iter n (Lexer.new b)).buffer := by rw [h1]; exact h3
  have hstep := next_step_bound hp
  rw [iter_succ_comm]
  exact ⟨h1, hstep.2.1, h3⟩

theorem tokenize_next_string_ne_eof (l : Lexer) : l.tokenize_next_string ≠ .eof := by
  unfold Lexer.tokenize_next_string
  cases hb : byteDrop (l.position + 1) l.buffer with
  | none => simp
  | some rest => dsimp only; split_ifs <;> simp

theorem resolveIdent_ne_eof (r : TokResult) : resolveIdent r ≠ .eof := by
  cases r with
  | ok tk length =>
    cases tk
    case Identifier ident =>
      unfold resolveIdent
      dsimp only
      cases hk : is_keyword ident <;> dsimp only <;> simp
    all_goals simp [resolveIdent]
  | eof => simp [resolveIdent]
  | fail e => simp [resolveIdent]
  | panicked => simp [resolveIdent]

theorem tokenize_next_number_ne_eof (l : Lexer) : l.tokenize_next_number ≠ .eof := by
  unfold Lexer.tokenize_next_number
  cases hb : byteDrop l.position l.buffer with
  | none => simp
  | some rest =>
    dsimp only
    cases hp : parseI64 (take_all rest isRustDigit10).1 <;> dsimp only <;> simp

theorem tokenize_next_of_none {l : Lexer} (h : l.buffer.get? l.position = none) :
    l.tokenize_next = .eof := by
  unfold Lexer.tokenize_next
  rw [h]

theorem tokenize_next_eof {l : Lexer} (h : l.tokenize_next = .eof) :
    l.buffer.get? l.position = none := by
  unfold Lexer.tokenize_next at h
  cases hc : l.buffer.get? l.position with
  | none => rfl
  | some current =>
    exfalso
    rw [hc] at h
    dsimp only at h
    by_cases hci1 : current = '('
    · rw [if_pos hci1] at h; cases h
    rw [if_neg hci1] at h
    by_cases hci2 : current = ')'
    · rw [if_pos hci2] at h; cases h
    rw [if_neg hci2] at h
    by_cases hci3 : current = '{'
    · rw [if_pos hci3] at h; cases h
    rw [if_neg hci3] at h
    by_cases hci4 : current = '}'
    · rw [if_pos hci4] at h; cases h
    rw [if_neg hci4] at h
    by_cases hci5 : current = ','
    · rw [if_pos hci5] at h; cases h
    rw [if_neg hci5] at h
    by_cases hci6 : current = '.'
    · rw [if_pos hci6] at h; cases h
    rw [if_neg hci6] at h
    by_cases hci7 : current = '-'
    · rw [if_pos hci7] at h; cases h
    rw [if_neg hci7] at h
    by_cases hci8 : current = '+'
    · rw [if_pos hci8] at h; cases h
    rw [if_neg hci8] at h
    by_cases hci9 : current = ';'
    · rw [if_pos hci9] at h; cases h
    rw [if_neg hci9] at h
    by_cases hci10 : current = '/'
    · rw [if_pos hci10] at h; cases h
    rw [if_neg hci10] at h
    by_cases hci11 : current = '*'
    · rw [if_pos hci11] at h; cases h
    rw [if_neg hci11] at h
    by_cases hci12 : current = '!'
    · rw [if_pos hci12] at h
      by_cases hEq : l.buffer.get? (l.position + 1) = some '='
      · rw [if_pos hEq] at h; cases h
      · rw [if_neg hEq] at h; cases h
    rw [if_neg hci12] at h
    by_cases hci13 : current = '='
    · rw [if_pos hci13] at h
      by_cases hEq : l.buffer.get? (l.position + 1) = some '='
      · rw [if_pos hEq] at h; cases h
      · rw [if_neg hEq] at h; cases h
    rw [if_neg hci13] at h
    by_cases hci14 : current = '>'
    · rw [if_pos hci14] at h
      by_cases hEq : l.buffer.get? (l.position + 1) = some '='
      · rw [if_pos hEq] at h; cases h
      · rw [if_neg hEq] at h; cases h
    rw [if_neg hci14] at h
    by_cases hci15 : current = '<'
    · rw [if_pos hci15] at h
      by_cases hEq : l.buffer.get? (l.position + 1) = some '='
      · rw [if_pos hEq] at h; cases h
      · rw [if_neg hEq] at h; cases h
    rw [if_neg hci15] at h
    by_cases hq : current = dquote
    · rw [if_pos hq] at h
      exact tokenize_next_string_ne_eof l h
    rw [if_neg hq] at h
    by_cases ha : isRustAlphabetic current = true
    · rw [if_pos ha] at h
      exact resolveIdent_ne_eof l.tokenize_next_identifier h
    rw [if_neg ha] at h
    by_cases hd : isRustDigit10 current = true
    · rw [if_pos hd] at h
      exact tokenize_next_number_ne_eof l h
    rw [if_neg hd] at h
    cases hbs : byteSlice l.buffer l.position (l.position + 10) <;>
      rw [hbs] at h <;> cases h

theorem next_eof_state {l l' : Lexer} (h : Lexer.next l = (.eof, l')) :
    l'.buffer = l.buffer ∧ l'.buffer.get? l'.position = none ∧
      l'.skip_whitespaces = some 0 := by
  unfold Lexer.next Lexer.nextSpans at h
  cases hs : l.skip_whitespaces with
  | none => rw [hs] at h; dsimp only at h; cases h
  | some skipped =>
    rw [hs] at h
    dsimp only at h
    cases ht : Lexer.tokenize_next ⟨l.buffer, l.position + skipped⟩ with
    | ok t len => rw [ht] at h; dsimp only at h; cases h
    | fail e => rw [ht] at h; dsimp only at h; cases h
    | panicked => rw [ht] at h; dsimp only at h; cases h
    | eof =>
      rw [ht] at h
      dsimp only at h
      have hl' : l' = ⟨l.buffer, l.position + skipped⟩ :=
        (congrArg Prod.snd h).symm
      subst hl'
      have hget := tokenize_next_eof ht
      refine ⟨rfl, hget, ?_⟩
      obtain ⟨rest, hb, hk⟩ := skip_whitespaces_some hs
      have hsplit : rest.takeWhile isRustWhitespace ++
          rest.dropWhile isRustWhitespace = rest :=
        List.takeWhile_append_dropWhile _ _
      have hb2 : byteDrop (l.position + skipped) l.buffer =
          some (rest.dropWhile isRustWhitespace) := by
        rw [byteDrop_add hb skipped, hk]
        have hap := byteDrop_append (rest.takeWhile isRustWhitespace)
          (rest.dropWhile isRustWhitespace)
        rwa [hsplit] at hap
      unfold Lexer.skip_whitespaces
      dsimp only
      rw [hb2]
      dsimp only [take_all]
      rw [takeWhile_dropWhile]
      rfl

theorem next_eof_fixed {l l' : Lexer} (h : Lexer.next l = (.eof, l')) :
    Lexer.next l' = (.eof, l') := by
  obtain ⟨-, hget, hs0⟩ := next_eof_state h
  have ht : Lexer.tokenize_next (⟨l'.buffer, l'.position + 0⟩ : Lexer) = .eof :=
    tokenize_next_of_none hget
  unfold Lexer.next Lexer.nextSpans
  rw [hs0]
  dsimp only
  rw [ht]
  dsimp only
  rfl

/-- C9: once an advancement has signalled exhaustion with state `l'`,
    every later advancement again signals exhaustion and leaves the state
    `l'` unchanged — polling past the end, any number of times, is an
    idempotent no-op rather than an error. -/
theorem claim_c9_exhaustion_idempotent {l l' : Lexer}
    (h : Lexer.next l = (.eof, l')) (k : Nat) :
    Lexer.next l' = (.eof, l') ∧ Lexer.iter k l' = l' := by
  have hf := next_eof_fixed h
  refine ⟨hf, ?_⟩
  induction k with
  | zero => rfl
  | succ m ih => rw [iter_succ_comm, ih, hf]

/-- Witness for C9 at the empty source: the first poll exhausts, and three
    further polls leave the state unchanged. -/
theorem claim_c9_witness :
    Lexer.next (⟨[], 0⟩ : Lexer) = (.eof, (⟨[], 0⟩ : Lexer)) ∧
    Lexer.iter 3 (⟨[], 0⟩ : Lexer) = (⟨[], 0⟩ : Lexer) :=
  claim_c9_exhaustion_idempotent
    (by decide : Lexer.next (⟨[], 0⟩ : Lexer) = (.eof, (⟨[], 0⟩ : Lexer))) 3

theorem nextSpans_tok {l : Lexer} {t : TokenKind} {ws len : Nat} {l2 : Lexer}
    (h : Lexer.nextSpans l = (.tok t, ws, len, l2)) :
    l.skip_whitespaces = some ws ∧
    Lexer.tokenize_next ⟨l.buffer, l.position + ws⟩ = .ok t len ∧
    l2 = ⟨l.buffer, l.position + ws + len⟩ := by
  unfold Lexer.nextSpans at h
  cases hs : l.skip_whitespaces with
  | none => rw [hs] at h; dsimp only at h; cases h
  | some skipped =>
    rw [hs] at h
    dsimp only at h
    cases ht : Lexer.tokenize_next ⟨l.buffer, l.position + skipped⟩ with
    | eof => rw [ht] at h; dsimp only at h; cases h
    | fail e => rw [ht] at h; dsimp only at h; cases h
    | panicked => rw [ht] at h; dsimp only at h; cases h
    | ok t0 len0 =>
      rw [ht] at h
      dsimp only at h
      simp only [Prod.mk.injEq, NextResult.tok.injEq] at h
      obtain ⟨h1, h2, h3, h4⟩ := h
      subst h1; subst h2; subst h3
      exact ⟨rfl, ht, h4.symm⟩

theorem nextSpans_eof {l : Lexer} {ws z : Nat} {l2 : Lexer}
    (h : Lexer.nextSpans l = (.eof, ws, z, l2)) :
    l.skip_whitespaces = some ws ∧
    Lexer.tokenize_next ⟨l.buffer, l.position + ws⟩ = .eof ∧
    l2 = ⟨l.buffer, l.position + ws⟩ := by
  unfold Lexer.nextSpans at h
  cases hs : l.skip_whitespaces with
  | none => rw [hs] at h; dsimp only at h; cases h
  | some skipped =>
    rw [hs] at h
    dsimp only at h
    cases ht : Lexer.tokenize_next ⟨l.buffer, l.position + skipped⟩ with
    | ok t0 len0 => rw [ht] at h; dsimp only at h; cases h
    | fail e => rw [ht] at h; dsimp only at h; cases h
    | panicked => rw [ht] at h; dsimp only at h; cases h
    | eof =>
      rw [ht] at h
      dsimp only at h
      simp only [Prod.mk.injEq] at h
      obtain ⟨-, h2, -, h4⟩ := h
      subst h2
      exact ⟨rfl, ht, h4.symm⟩

theorem runLens_exhausted_ascii (fuel : Nat) :
    ∀ (l : Lexer), (∀ c ∈ l.buffer, c.toNat < 128) →
    ∀ {ws ls : List Nat} {lf : Lexer},
      Lexer.runLens fuel l = (ws, ls, .exhausted, lf) →
      l.position + ws.sum + ls.sum = l.buffer.length := by
  induction fuel with
  | zero =>
    intro l hA ws ls lf h
    rw [Lexer.runLens] at h
    exact absurd (congrArg (fun q => q.2.2.1) h) (by simp)
  | succ m ih =>
    intro l hA ws ls lf h
    rw [Lexer.runLens] at h
    rcases hns : Lexer.nextSpans l with ⟨r, ws0, len0, l2⟩
    rw [hns] at h
    cases r with
    | panicked =>
      dsimp only at h
      exact absurd (congrArg (fun q => q.2.2.1) h) (by simp)
    | eof =>
      dsimp only at h
      obtain ⟨hs, ht, hl2⟩ := nextSpans_eof hns
      simp only [Prod.mk.injEq] at h
      obtain ⟨hws, hls, -, -⟩ := h
      have hBL : utf8Length l.buffer = l.buffer.length :=
        utf8Length_of_len1 (fun c hc => lenUtf8_ascii (hA c hc))
      have hle : l.position + ws0 ≤ l.buffer.length := by
        have := skip_whitespaces_le hs
        omega
      have hge : l.buffer.length ≤ l.position + ws0 := by
        have := tokenize_next_eof ht
        exact List.get?_eq_none.1 this
      subst hws; subst hls
      simp only [List.sum_cons, List.sum_nil]
      omega
    | tok t =>
      dsimp only at h
      obtain ⟨hs, ht, hl2⟩ := nextSpans_tok hns
      rcases hr : Lexer.runLens m l2 with ⟨ws1, ls1, stop1, lf1⟩
      rw [hr] at h
      dsimp only at h
      simp only [Prod.mk.injEq] at h
      obtain ⟨hws, hls, hstop, -⟩ := h
      subst hws; subst hls
      have hA2 : ∀ c ∈ l2.buffer, c.toNat < 128 := by
        rw [hl2]; exact hA
      have hrec := ih l2 hA2 (by rw [hr, hstop])
      rw [hl2] at hrec
      dsimp only at hrec
      simp only [List.sum_cons]
      omega

/-- C1 (amended): over all-ASCII source text, when the token stream
    reaches exhaustion without failure, the byte lengths of the consumed
    token spans plus the byte lengths of every skipped whitespace run sum
    to the total byte length of the buffer.  (On non-ASCII text the claim
    fails; see the counterexample.) -/
theorem claim_c1_byte_accounting (b : List Char) (hA : ∀ c ∈ b, c.toNat < 128)
    (fuel : Nat) (ws ls : List Nat) (lf : Lexer)
    (h : Lexer.runLens fuel (Lexer.new b) = (ws, ls, .exhausted, lf)) :
    ls.sum + ws.sum = utf8Length b := by
  have hacc := runLens_exhausted_ascii fuel (Lexer.new b) hA h
  have hBL : utf8Length b = b.length :=
    utf8Length_of_len1 (fun c hc => lenUtf8_ascii (hA c hc))
  dsimp only [Lexer.new] at hacc
  omega

/-- C1 counterexample: the two-character source `U+00A0 (` — a non-ASCII
    whitespace followed by a left parenthesis, three bytes in all — is
    scanned to exhaustion without failure, yet only the two whitespace
    bytes are ever accounted: the parenthesis byte is skipped silently,
    because the end-of-input test reads a character index where the byte
    offset already is. -/
theorem claim_c1_counterexample :
    Lexer.runLens 3 (Lexer.new [Char.ofNat 0xA0, '(']) =
      ([2], [], .exhausted, (⟨[Char.ofNat 0xA0, '('], 2⟩ : Lexer)) ∧
    ([] : List Nat).sum + ([2] : List Nat).sum ≠
      utf8Length [Char.ofNat 0xA0, '('] := by
  constructor
  · decide
  · decide

/-- Witness for C1 on the ASCII source `space ( semicolon`: the token
    spans and whitespace runs cover all three bytes. -/
theorem claim_c1_witness :
    ([1, 1] : List Nat).sum + ([1, 0, 0] : List Nat).sum =
      utf8Length [' ', '(', ';'] :=
  claim_c1_byte_accounting [' ', '(', ';'] (by decide) 5 [1, 0, 0] [1, 1]
    (⟨[' ', '(', ';'], 3⟩ : Lexer) (by decide)

theorem lookupKw_mem {tbl : List (List Char × TokenKind)} {s : List Char}
    {k : TokenKind} (h : lookupKw tbl s = some k) : (s, k) ∈ tbl := by
  induction tbl with
  | nil => rw [lookupKw] at h; cases h
  | cons e t ih =>
    rcases e with ⟨key, tok⟩
    rw [lookupKw] at h
    split_ifs at h with he
    · rw [Option.some.injEq] at h
      subst h; rw [he]
      exact List.mem_cons_self _ _
    · exact List.mem_cons_of_mem _ (ih h)

theorem lookupKw_of_mem {tbl : List (List Char × TokenKind)} {s : List Char}
    {k : TokenKind} (hnd : (tbl.map Prod.fst).Nodup) (h : (s, k) ∈ tbl) :
    lookupKw tbl s = some k := by
  induction tbl with
  | nil => cases h
  | cons e t ih =>
    rcases e with ⟨key, tok⟩
    rw [List.map_cons, List.nodup_cons] at hnd
    rw [lookupKw]
    rcases List.mem_cons.1 h with heq | hmem
    · rw [Prod.mk.injEq] at heq
      rw [if_pos heq.1, heq.2]
    · have hne : ¬s = key := by
        intro hse
        apply hnd.1
        rw [← hse]
        exact List.mem_map.2 ⟨(s, k), hmem, rfl⟩
      rw [if_neg hne]
      exact ih hnd.2 hmem

/-- C2: each of the four ambiguous operator characters — bang, equal,
    greater, less — scans alone to its short variant consuming one byte,
    and scans to the single long variant consuming two bytes whenever the
    very next character is an equals sign; a full scan of the pair yields
    one long token, never the short variant followed by `Equal`. -/
theorem claim_c2_two_char_operators :
    (Lexer.tokenize_next (Lexer.new ['!']) = .ok .Bang 1 ∧
     Lexer.tokenize_next (Lexer.new ['=']) = .ok .Equal 1 ∧
     Lexer.tokenize_next (Lexer.new ['>']) = .ok .Greater 1 ∧
     Lexer.tokenize_next (Lexer.new ['<']) = .ok .Less 1) ∧
    ((∀ rest : List Char,
       Lexer.tokenize_next (Lexer.new ('!' :: '=' :: rest)) = .ok .BangEqual 2) ∧
     (∀ rest : List Char,
       Lexer.tokenize_next (Lexer.new ('=' :: '=' :: rest)) = .ok .EqualEqual 2) ∧
     (∀ rest : List Char,
       Lexer.tokenize_next (Lexer.new ('>' :: '=' :: rest)) = .ok .GreaterEqual 2) ∧
     (∀ rest : List Char,
       Lexer.tokenize_next (Lexer.new ('<' :: '=' :: rest)) = .ok .LessEqual 2)) ∧
    ((Lexer.run 3 (Lexer.new ['!', '='])).1 = [.BangEqual] ∧
     (Lexer.run 3 (Lexer.new ['=', '='])).1 = [.EqualEqual] ∧
     (Lexer.run 3 (Lexer.new ['>', '='])).1 = [.GreaterEqual] ∧
     (Lexer.run 3 (Lexer.new ['<', '='])).1 = [.LessEqual]) :=
  ⟨⟨by decide, by decide, by decide, by decide⟩,
   ⟨fun rest => rfl, fun rest => rfl, fun rest => rfl, fun rest => rfl⟩,
   ⟨by decide, by decide, by decide, by decide⟩⟩

/-- C5: keyword resolution is an exact, case-sensitive, whole-token match
    against the fixed sixteen-entry table: `is_keyword` answers `some`
    exactly on the table's entries; scanning `fun` yields the `Fun`
    keyword token, while `funny` and `Fun` yield plain identifiers. -/
theorem claim_c5_keyword_resolution :
    (∀ s k, is_keyword s = some k ↔ (s, k) ∈ keywords) ∧
    (Lexer.run 3 (Lexer.new ("fun".toList))).1 = [.Fun] ∧
    (Lexer.run 3 (Lexer.new ("funny".toList))).1 =
      [.Identifier ("funny".toList)] ∧
    (Lexer.run 3 (Lexer.new ("Fun".toList))).1 =
      [.Identifier ("Fun".toList)] :=
  ⟨fun s k => ⟨fun h => lookupKw_mem h, fun h => lookupKw_of_mem (by decide) h⟩,
   by decide, by decide, by decide⟩

/-- Witness for C5: resolving the concrete text `or` through the table
    yields the `Or` keyword token. -/
theorem claim_c5_witness : is_keyword ("or".toList) = some TokenKind.Or :=
  (claim_c5_keyword_resolution.1 ("or".toList) TokenKind.Or).2 (by decide)

/-- C6 evaluated on the code: the spec makes underscore start an
    identifier, but the guard `ch.is_alphabetic()` of the Rust match arm
    `ch @ '_' | ch if ch.is_alphabetic()` applies to the `'_'` alternative
    too, so `'_'` falls through to the unknown-token arm: on the one-byte
    source `_` the ten-byte snippet slice panics, and on a longer source
    the advancement returns the unrecognized-character failure — never an
    `Identifier` token. -/
theorem claim_c6_underscore_rejected :
    Lexer.tokenize_next (Lexer.new ['_']) = .panicked ∧
    (Lexer.next (Lexer.new ['_'])).1 = .panicked ∧
    Lexer.tokenize_next (Lexer.new ("_abcdefghijk".toList)) =
      .fail (.unknownToken ("_abcdefghi".toList)) := by decide

/-- C7 evaluated on the code: at an unrecognized character the snippet is
    sliced as `&buffer[position..position + 10]` unconditionally, so with
    fewer than ten bytes left the advancement panics on an out-of-bounds
    read instead of returning the failure value; with ten bytes available
    it does return the unrecognized-character failure carrying them. -/
theorem claim_c7_snippet_bounds :
    Lexer.tokenize_next (Lexer.new ['#']) = .panicked ∧
    (Lexer.next (Lexer.new ['#'])).1 = .panicked ∧
    Lexer.tokenize_next (Lexer.new ("#123456789".toList)) =
      .fail (.unknownToken ("#123456789".toList)) := by decide

/-- C10: scanning is deterministic — two scanner instances constructed
    over identical text produce identical token sequences in identical
    order (the scanner is a pure function of its buffer and cursor, so
    equal buffers give equal runs). -/
theorem claim_c10_deterministic (b1 b2 : List Char) (fuel : Nat)
    (h : b1 = b2) :
    (Lexer.run fuel (Lexer.new b1)).1 = (Lexer.run fuel (Lexer.new b2)).1 := by
  subst h; rfl

/-- Witness for C10 at the concrete source `print`. -/
theorem claim_c10_witness :
    (Lexer.run 4 (Lexer.new ("print".toList))).1 =
      (Lexer.run 4 (Lexer.new ("print".toList))).1 :=
  claim_c10_deterministic ("print".toList) ("print".toList) 4 rfl

/-- C3 (amended): at an opening double-quote, when the maximal run of
    non-quote characters consists of single-byte characters and a closing
    double-quote follows it, the scanner yields a `String` token whose
    value is exactly that run, consuming the run's byte length plus two;
    and whenever no closing quote occurs before end of input the
    advancement fails with the unterminated-string error.  (A run holding
    a multi-byte character can be rejected spuriously even though its
    closing quote is present — see the counterexample.) -/
theorem claim_c3_string_scanning :
    (∀ run rest : List Char, (∀ c ∈ run, c ≠ dquote) →
      (∀ c ∈ run, lenUtf8 c = 1) →
      Lexer.tokenize_next (Lexer.new (dquote :: (run ++ dquote :: rest))) =
        .ok (.String run) (utf8Length run + 2)) ∧
    (∀ run : List Char, (∀ c ∈ run, c ≠ dquote) →
      Lexer.tokenize_next (Lexer.new (dquote :: run)) =
        .fail .unmatchedQuotes) := by
  constructor
  · intro run rest hnq h1
    have hlen : utf8Length run = run.length := utf8Length_of_len1 h1
    have htw : (run ++ dquote :: rest).takeWhile (fun ch => ch != dquote) =
        run :=
      takeWhile_append_stop
        (fun c hc => by simp only [bne_iff_ne, ne_eq]; exact hnq c hc)
        (by simp) rest
    have hq : (dquote :: (run ++ dquote :: rest)).get?
        (0 + utf8Length run + 1) = some dquote := by
      rw [hlen, show (0 : Nat) + run.length + 1 = run.length + 1 by omega,
        List.get?_cons_succ, List.get?_append_right (Nat.le_refl _),
        Nat.sub_self]
      rfl
    show Lexer.tokenize_next_string
      (Lexer.new (dquote :: (run ++ dquote :: rest))) = _
    unfold Lexer.tokenize_next_string
    dsimp only [Lexer.new]
    rw [show (0 : Nat) + 1 = 1 from rfl,
      byteDrop_one_of_len1 (by decide) (run ++ dquote :: rest)]
    dsimp only [take_all]
    rw [htw, if_pos hq]
  · intro run hnq
    have htw : run.takeWhile (fun ch => ch != dquote) = run :=
      takeWhile_all
        (fun c hc => by simp only [bne_iff_ne, ne_eq]; exact hnq c hc)
    have hnone : (dquote :: run).get? (0 + utf8Length run + 1) = none := by
      apply List.get?_eq_none.2
      have := length_le_utf8Length run
      simp only [List.length_cons]
      omega
    show Lexer.tokenize_next_string (Lexer.new (dquote :: run)) = _
    unfold Lexer.tokenize_next_string
    dsimp only [Lexer.new]
    rw [show (0 : Nat) + 1 = 1 from rfl, byteDrop_one_of_len1 (by decide) run]
    dsimp only [take_all]
    rw [htw, if_neg (by rw [hnone]; simp)]

/-- C3 counterexample: in the source `"é"` the maximal non-quote run is
    `é` and the closing double-quote follows it immediately, yet the
    scanner rejects the input as an unterminated string: the run is two
    bytes long but one character, and the closing-quote test reads
    character index `run-byte-length + 1`, which here is past the end. -/
theorem claim_c3_counterexample :
    (['é', dquote].takeWhile (fun ch => ch != dquote) = ['é'] ∧
     [dquote, 'é', dquote].get? 2 = some dquote) ∧
    Lexer.tokenize_next (Lexer.new [dquote, 'é', dquote]) =
      .fail .unmatchedQuotes := by decide

/-- Witness for C3: the terminated ASCII string `"ab"(` scans to
    `String "ab"` consuming four bytes, and the unterminated `"a` fails. -/
theorem claim_c3_witness :
    Lexer.tokenize_next
        (Lexer.new (dquote :: (['a', 'b'] ++ dquote :: ['(']))) =
      .ok (.String ['a', 'b']) (utf8Length ['a', 'b'] + 2) ∧
    Lexer.tokenize_next (Lexer.new (dquote :: ['a'])) =
      .fail .unmatchedQuotes :=
  ⟨claim_c3_string_scanning.1 ['a', 'b'] ['('] (by decide) (by decide),
   claim_c3_string_scanning.2 ['a'] (by decide)⟩

/-- C4: at a decimal digit the scanner consumes the maximal run of
    decimal digits and parses it in base 10 as a signed 64-bit integer:
    a run whose value fits in `i64` yields `Number` of exactly that
    value and consumes the run, while a run past `i64::MAX` fails with
    the malformed-numeric error instead of silently truncating.
    Concretely `123` scans to `Number 123` and the 19-digit successor
    of `i64::MAX` fails. -/
theorem claim_c4_number_scanning :
    (∀ run rest : List Char, run ≠ [] →
      (∀ c ∈ run, isRustDigit10 c = true) →
      (∀ c, rest.head? = some c → isRustDigit10 c = false) →
      Lexer.tokenize_next (Lexer.new (run ++ rest)) =
        (if digitsVal run ≤ 9223372036854775807 then
          .ok (.Number (Int.ofNat (digitsVal run))) (utf8Length run)
         else .fail .parseIntError)) ∧
    (Lexer.run 3 (Lexer.new ['1', '2', '3'])).1 = [.Number 123] ∧
    Lexer.tokenize_next (Lexer.new ("9223372036854775808".toList)) =
      .fail .parseIntError := by
  refine ⟨?_, by decide, by decide⟩
  intro run rest hne hall hhead
  rcases run with _ | ⟨d, ds⟩
  · exact absurd rfl hne
  have hd : isRustDigit10 d = true := hall d (by simp)
  have htw : ((d :: ds) ++ rest).takeWhile isRustDigit10 = d :: ds := by
    rcases rest with _ | ⟨r0, rs⟩
    · rw [List.append_nil]
      exact takeWhile_all hall
    · exact takeWhile_append_stop hall (hhead r0 rfl) rs
  have hallb : (d :: ds).all isRustDigit10 = true := List.all_eq_true.2 hall
  have hpe : parseI64 (d :: ds) =
      (if digitsVal (d :: ds) ≤ 9223372036854775807 then
        some (Int.ofNat (digitsVal (d :: ds))) else none) := by
    unfold parseI64
    rw [hallb]
    rfl
  unfold Lexer.tokenize_next
  dsimp only [Lexer.new]
  rw [List.cons_append, List.get?_cons_zero]
  dsimp only
  rw [if_neg (show ¬d = '(' from fun he => absurd (he ▸ hd) (by decide))]
  rw [if_neg (show ¬d = ')' from fun he => absurd (he ▸ hd) (by decide))]
  rw [if_neg (show ¬d = '{' from fun he => absurd (he ▸ hd) (by decide))]
  rw [if_neg (show ¬d = '}' from fun he => absurd (he ▸ hd) (by decide))]
  rw [if_neg (show ¬d = ',' from fun he => absurd (he ▸ hd) (by decide))]
  rw [if_neg (show ¬d = '.' from fun he => absurd (he ▸ hd) (by decide))]
  rw [if_neg (show ¬d = '-' from fun he => absurd (he ▸ hd) (by decide))]
  rw [if_neg (show ¬d = '+' from fun he => absurd (he ▸ hd) (by decide))]
  rw [if_neg (show ¬d = ';' from fun he => absurd (he ▸ hd) (by decide))]
  rw [if_neg (show ¬d = '/' from fun he => absurd (he ▸ hd) (by decide))]
  rw [if_neg (show ¬d = '*' from fun he => absurd (he ▸ hd) (by decide))]
  rw [if_neg (show ¬d = '!' from fun he => absurd (he ▸ hd) (by decide))]
  rw [if_neg (show ¬d = '=' from fun he => absurd (he ▸ hd) (by decide))]
  rw [if_neg (show ¬d = '>' from fun he => absurd (he ▸ hd) (by decide))]
  rw [if_neg (show ¬d = '<' from fun he => absurd (he ▸ hd) (by decide))]
  rw [if_neg (show ¬d = dquote from fun he => absurd (he ▸ hd) (by decide))]
  rw [if_neg (show ¬isRustAlphabetic d = true by simp [digit_not_alpha hd])]
  rw [if_pos hd]
  unfold Lexer.tokenize_next_number
  dsimp only [Lexer.new]
  rw [byteDrop_zero]
  dsimp only [take_all]
  rw [← List.cons_append, htw, hpe]
  split_ifs with hv
  · rfl
  · rfl

/-- Witness for C4 at the one-digit run `7`. -/
theorem claim_c4_witness :
    Lexer.tokenize_next (Lexer.new (['7'] ++ [])) =
      (if digitsVal ['7'] ≤ 9223372036854775807 then
        .ok (.Number (Int.ofNat (digitsVal ['7']))) (utf8Length ['7'])
       else .fail .parseIntError) :=
  claim_c4_number_scanning.1 ['7'] [] (by decide) (by decide)
    (fun c hcontra => nomatch hcontra)
